import Mathlib

/-!
Verification of the woof-rs transfer engine (src/main.rs).

The development below is a shallow embedding of the program's pure logic:

* byte streams are `List Char` (one `Char` stands for one byte; all header
  text handled by the program is ASCII, and payload bytes are opaque),
* the filesystem is a `List String` of existing path names (or an
  association list from names to contents where contents matter),
* Rust's `?` early returns and `process::exit` are modelled with `Option`,
* the `usize` subtraction computing the upload payload size is modelled by
  a checked subtraction returning `Option Nat` (`none` stands for the
  underflow, which panics under overflow checks and wraps in release mode —
  in neither case does it produce a usable length).

Every definition is translated from the Rust source; doc comments cite the
lines of src/main.rs they embed.
-/

namespace Woof

/-! ## Multipart ingestion (src/main.rs lines 119-200) -/

/-- Model of `BufReader::read_line` (main.rs line 171): reads bytes up to and
including the first newline; at end of input it returns what is left (the
empty list at EOF, mirroring `read_line` returning `Ok(0)`). Returns the
line read and the remaining stream. -/
def readLine : List Char → List Char × List Char
  | [] => ([], [])
  | c :: rest =>
    if c = '\n' then ([c], rest)
    else
      let p := readLine rest
      (c :: p.1, p.2)

/-- Model of Rust `str::split` on a one-character separator (main.rs
lines 173-180 use `split(";")` and `split("=")` with one-char patterns):
`"a;b".split(';') = ["a", "b"]`, `"".split(';') = [""]`. -/
def splitOnChar (sep : Char) : List Char → List (List Char)
  | [] => [[]]
  | c :: rest =>
    if c = sep then [] :: splitOnChar sep rest
    else
      match splitOnChar sep rest with
      | [] => [[c]]
      | h :: t => (c :: h) :: t

/-- Model of `Iterator::last().unwrap()` on the result of a split (the split
is never empty, so the default is never used). -/
def lastD : List (List Char) → List Char
  | [] => []
  | [l] => l
  | _ :: l :: ls => lastD (l :: ls)

/-- Model of `str::trim` (main.rs line 177): strip whitespace from both
ends. -/
def trimChars (l : List Char) : List Char :=
  ((l.dropWhile Char.isWhitespace).reverse.dropWhile Char.isWhitespace).reverse

/-- Model of `str::trim_matches('"')` (main.rs line 181): strip all leading
and trailing double-quote characters. -/
def trimMatchesQuote (l : List Char) : List Char :=
  ((l.dropWhile (fun c => c = '"')).reverse.dropWhile (fun c => c = '"')).reverse

/-- Literal `"Content-Disposition"` tested by `starts_with` at main.rs
line 172. -/
def cdLit : List Char := "Content-Disposition".data

/-- Filename extraction from a `Content-Disposition` header line, translated
from main.rs lines 173-182:
`line.split(";").last().unwrap().trim().split("=").last().unwrap().trim_matches('"')`. -/
def extractFilename (line : List Char) : List Char :=
  trimMatchesQuote (lastD (splitOnChar '=' (trimChars (lastD (splitOnChar ';' line)))))

/-- Helper for termination of the header-scanning loop: `readLine` splits its
input exactly. -/
theorem readLine_length (s : List Char) :
    (readLine s).1.length + (readLine s).2.length = s.length := by
  induction s with
  | nil => simp [readLine]
  | cons c rest ih =>
    by_cases h : c = '\n' <;> simp [readLine, h] <;> omega

/-- Helper for termination: on a nonempty stream `readLine` consumes at least
one byte. -/
theorem readLine_rest_lt (s : List Char) (h : s ≠ []) :
    (readLine s).2.length < s.length := by
  cases s with
  | nil => exact absurd rfl h
  | cons c rest =>
    by_cases hc : c = '\n'
    · simp [readLine, hc]
    · have := readLine_length rest
      simp only [readLine, if_neg hc, List.length_cons]
      omega

/-- Part-header scanning loop of the multipart ingestor, translated from
main.rs lines 165-188: read one line at a time with `read_line`, accumulate
the exact byte count consumed, record the filename extracted from any
`Content-Disposition` line, and stop at the first empty (`"\r\n"`) line.
Returns `(bytes_consumed, filename, remaining stream)`. At end of input
before the empty line the Rust loop would spin on zero-byte reads forever;
`none` models that the loop never produces a result there. -/
def scanHeaders (stream : List Char) (bytes : Nat) (fname : List Char) :
    Option (Nat × List Char × List Char) :=
  if hs : stream = [] then none
  else if (readLine stream).1 = ['\r', '\n'] then
    some (bytes + (readLine stream).1.length,
      (if cdLit.isPrefixOf (readLine stream).1 then extractFilename (readLine stream).1
       else fname),
      (readLine stream).2)
  else
    scanHeaders (readLine stream).2 (bytes + (readLine stream).1.length)
      (if cdLit.isPrefixOf (readLine stream).1 then extractFilename (readLine stream).1
       else fname)
termination_by stream.length
decreasing_by exact readLine_rest_lt stream hs

/-- Payload-length computation of main.rs line 198:
`content_length - bytes_consumed - boundary.len() - 8` on `usize`.
The result is `some` of the mathematical difference when it is non-negative;
`none` models the `usize` underflow (a panic under overflow checks, a
wraparound — and thus a absurdly-sized `vec![0; filesize]` — in release
mode), which never yields a usable payload length. -/
def filesize (content_length bytes_consumed boundary_len : Nat) : Option Nat :=
  if bytes_consumed + boundary_len + 8 ≤ content_length then
    some (content_length - (bytes_consumed + boundary_len + 8))
  else none

/-- Multipart ingestion pipeline of main.rs lines 165-200: scan the part
headers (accumulating `bytes_consumed`, starting from the leading boundary
line), compute the payload length from `Content-Length`, the bytes consumed
and the boundary length, and `read_exact` that many bytes. `none` models the
error paths (`?` on a short read, the underflow panic, a stream exhausted
before the empty header line). Returns the extracted filename and the
payload bytes. -/
def ingest (content_length : Nat) (boundary : List Char) (stream : List Char) :
    Option (List Char × List Char) :=
  match scanHeaders stream 0 [] with
  | none => none
  | some (bytes_consumed, fname, rest) =>
    match filesize content_length bytes_consumed boundary.length with
    | none => none
    | some n => if n ≤ rest.length then some (fname, rest.take n) else none

/-! ### Synthetic single-part request body (wire format of main.rs
lines 151-163) -/

/-- Carriage-return line-feed pair. -/
def crlf : List Char := ['\r', '\n']

/-- Leading boundary line `--<boundary>\r\n` of the multipart body. -/
def boundaryLine (b : List Char) : List Char := ['-', '-'] ++ b ++ crlf

/-- Fixed lead-in of the Content-Disposition part-header line produced by
the upload form (main.rs line 154). -/
def dispPre : List Char :=
  "Content-Disposition: form-data; name=\"upload-file\"; filename=\"".data

/-- Content-Disposition part-header line carrying the filename, as produced
by the upload form (main.rs line 154). -/
def dispLine (fn : List Char) : List Char := dispPre ++ fn ++ ['"'] ++ crlf

/-- Content-Type part-header line (main.rs line 155). -/
def ctypeLine : List Char := "Content-Type: application/octet-stream".data ++ crlf

/-- Closing boundary framing `\r\n--<boundary>--\r\n` that follows the
payload (main.rs lines 158-162): 8 framing bytes plus the boundary string. -/
def closeDelim (b : List Char) : List Char :=
  crlf ++ ['-', '-'] ++ b ++ ['-', '-'] ++ crlf

/-- Complete synthetic single-part `multipart/form-data` body: boundary
line, two part-header lines, empty line, payload, closing delimiter. -/
def syntheticBody (b fn payload : List Char) : List Char :=
  boundaryLine b ++ dispLine fn ++ ctypeLine ++ crlf ++ payload ++ closeDelim b

/-! ## Byte-slice replacement (src/main.rs lines 243-256) -/

/-- Loop body of `replace` (main.rs lines 247-255), fuel-indexed. The Rust
loop keeps an index `i` into the vector `source`; while
`i + from_len <= source.len()` it tests `source[i..].starts_with(from)`,
splices `to` over the match (`source.splice(i..i+from_len, to)`, i.e.
`take i ++ to ++ drop (i + from_len)`) and jumps past the substituted bytes
(`i += to_len`), otherwise advances by one. `none` models fuel exhaustion
(the Rust loop diverges when `from` and `to` are both empty); with
`source.length + 1` fuel and a nonempty `from` the loop always finishes. -/
def replaceGo (from_ to_ : List Char) : Nat → List Char → Nat → Option (List Char)
  | 0, _, _ => none
  | fuel + 1, source, i =>
    if i + from_.length ≤ source.length then
      if from_.isPrefixOf (source.drop i) then
        replaceGo from_ to_ fuel (source.take i ++ to_ ++ source.drop (i + from_.length))
          (i + to_.length)
      else replaceGo from_ to_ fuel source (i + 1)
    else some source

/-- Model of `replace` (main.rs lines 243-256), entered at index 0 with
enough fuel for any nonempty pattern. -/
def replaceBytes (from_ to_ source : List Char) : Option (List Char) :=
  replaceGo from_ to_ (source.length + 1) source 0

/-- Specification-side replacement, written from the words of the claim:
substitute every left-to-right, non-overlapping occurrence of `from_` by
`to`, never re-matching inside the bytes just substituted. -/
def replaceSpec (from_ to_ : List Char) (l : List Char) : List Char :=
  match l with
  | [] => []
  | a :: rest =>
    if from_ ≠ [] ∧ from_.isPrefixOf (a :: rest) then
      to_ ++ replaceSpec from_ to_ ((a :: rest).drop from_.length)
    else a :: replaceSpec from_ to_ rest
termination_by l.length
decreasing_by
  · rename_i h
    have hfl : 0 < from_.length := List.length_pos.2 h.1
    simp only [List.length_drop, List.length_cons]
    omega
  · simp

/-! ## Stream copy (src/main.rs lines 106-114 and 401-409) -/

/-- Buffered copy loop used both to serve the artifact over the socket
(main.rs lines 106-114) and to feed file bytes into the zip writer
(main.rs lines 401-409): `fill_buf` yields up to `chunk` bytes, a zero-length
read ends the loop, otherwise the chunk is written to the sink and consumed.
The returned list is the byte sequence observed by the sink. -/
def streamCopy (chunk : Nat) (src : List Char) : List Char :=
  if (src.take chunk).length = 0 then []
  else src.take chunk ++ streamCopy chunk (src.drop chunk)
termination_by src.length
decreasing_by
  rename_i h
  have hc : chunk ≠ 0 := by
    intro hc0; simp [hc0] at h
  have hs : src ≠ [] := by
    intro hs0; simp [hs0] at h
  simp only [List.length_drop]
  have := List.length_pos.2 hs
  omega

/-- Buffer capacity `BUF_SIZE` of main.rs line 52. -/
def BUF_SIZE : Nat := 32 * 1024

/-! ## Request-handling loop (src/main.rs lines 88-230) -/

/-- Request line expected by the download path (main.rs line 94), as read by
`read_line` (trailing CRLF included). -/
def getLine : String := "GET / HTTP/1.1\r\n"

/-- Request line expected by the upload path (main.rs line 119). -/
def postLine : String := "POST / HTTP/1.1\r\n"

/-- Whether handling one accepted connection with the given request line
`break`s out of the `for stream in listener.incoming()` loop, translated
from the branch structure of main.rs lines 94-229: a `GET / HTTP/1.1` line
breaks only in send mode (`!recv`, after streaming the file, line 117); a
`POST / HTTP/1.1` line breaks in either mode (lines 148 and 228); any other
line falls through both branches and the loop continues. -/
def stopsOn (recv : Bool) (line : String) : Bool :=
  if line = getLine then !recv
  else if line = postLine then true
  else false

/-- The accept loop of main.rs lines 88-230 over a list of incoming
connections, each summarized by its request line: returns the index of the
connection at which the loop `break`s, or `none` if it exhausts the list
still waiting. -/
def loopRun (recv : Bool) : List String → Option Nat
  | [] => none
  | l :: rest =>
    if stopsOn recv l then some 0
    else (loopRun recv rest).map (· + 1)

/-! ## Transfer preparation (src/main.rs lines 55-83 and 258-296) -/

/-- Resolved kind of a filesystem path (`is_file` / `is_dir` checks of
main.rs lines 279-282). -/
inductive PKind where
  | file
  | dir
  | invalid
deriving DecidableEq, Repr

/-- Archive encoding chosen on the command line (main.rs lines 43-49). -/
inductive Encoding where
  | tgz
  | zip
deriving DecidableEq, Repr

/-- Temporary-archive base name `TEMP_FILE` of main.rs line 51. -/
def TEMP_FILE : String := "woof-rs"

/-- Temporary-archive file name per encoding (main.rs lines 259-266). -/
def tempName : Encoding → String
  | .tgz => TEMP_FILE ++ ".tar.gz"
  | .zip => TEMP_FILE ++ ".zip"

/-- The `has_files` flag computed by `archive` (main.rs lines 301-331 and
342-384): set exactly when some input path is a regular file or a
directory. `kind` resolves each path name to its filesystem kind. -/
def archiveHasFiles (kind : String → PKind) (paths : List String) : Bool :=
  paths.any (fun p => kind p = PKind.file ∨ kind p = PKind.dir)

/-- Model of `prepare_file` (main.rs lines 258-296). `none` models
`process::exit(-1)`: no path at all (line 274), a single path that is
neither file nor directory (line 292), or `archive` exiting because nothing
valid was added (line 392, reached through the `unwrap` at line 285).
Otherwise the served file name and the `is_archive` flag are returned. -/
def prepare_file (kind : String → PKind) (enc : Encoding) (paths : List String) :
    Option (String × Bool) :=
  match paths.head? with
  | none => none
  | some p0 =>
    if paths.length = 1 ∧ kind p0 = PKind.file then some (p0, false)
    else if paths.length > 1 ∨ kind p0 = PKind.dir then
      if archiveHasFiles kind paths then some (tempName enc, true) else none
    else none

/-- Specification-side preparation policy, written from the words of the
(amended) claim: empty list or a single invalid path is fatal; a single
regular file is served directly and is not temporary; a single directory or
several paths go through the archive builder, which is fatal when it ends
up with no valid entry and otherwise yields the temporary archive. -/
def prepareSpec (kind : String → PKind) (enc : Encoding) (paths : List String) :
    Option (String × Bool) :=
  match paths with
  | [] => none
  | [p] =>
    match kind p with
    | .file => some (p, false)
    | .dir => some (tempName enc, true)
    | .invalid => none
  | _ :: _ :: _ =>
    if archiveHasFiles kind paths then some (tempName enc, true) else none

/-- Observable startup events of `main` (send mode), in program order. -/
inductive StartEvent where
  | bindSocket
  | exitError
  | serveReady (fname : String) (is_archive : Bool)
  | recvReady
deriving DecidableEq, Repr

/-- Startup sequence of `main` (main.rs lines 55-83): the listening socket
is bound at line 62, *then* send mode calls `prepare_file` at line 72
(which may `process::exit`); receive mode just waits. -/
def startupTrace (kind : String → PKind) (enc : Encoding) (recv : Bool)
    (paths : List String) : List StartEvent :=
  StartEvent.bindSocket ::
    (if recv then [StartEvent.recvReady]
     else
       match prepare_file kind enc paths with
       | none => [StartEvent.exitError]
       | some (f, a) => [StartEvent.serveReady f a])

/-! ## Archive entry naming (src/main.rs lines 300-396) -/

/-- One input path as the archive builder sees it: its base name
(`path.file_name()`, main.rs lines 311 and 343), its resolved kind, and —
for a directory — the relative paths of everything inside its subtree
(the walk of `append_dir_all` / `WalkDir`). -/
structure PathEntry where
  base : String
  kind : PKind
  subpaths : List String
deriving DecidableEq, Repr

/-- Archive entry names contributed by the input path at position `i`,
translated from main.rs lines 310-331 (tar) and 342-384 (zip): a regular
file is stored under its bare base name (`tar.append_file(p, ..)`,
`zip.start_file(p, ..)`); a directory is stored under `"{p}-{i}"` (the
`dirname` of lines 321 and 353), itself as a directory entry plus each
subtree member under `dirname/<relative-path>`; an invalid path contributes
nothing (only a printed warning, lines 327 and 382). -/
def entryNames (i : Nat) (e : PathEntry) : List String :=
  match e.kind with
  | .file => [e.base]
  | .dir =>
    (e.base ++ "-" ++ toString i)
      :: e.subpaths.map (fun s => e.base ++ "-" ++ toString i ++ "/" ++ s)
  | .invalid => []

/-- All entry names of the archive, in input order (the
`for (i, path) in paths.iter().enumerate()` loops of main.rs lines 310 and
342). -/
def archiveEntries (paths : List PathEntry) : List String :=
  (paths.enum.map (fun p => entryNames p.1 p.2)).flatten

/-! ## Archive lifecycle (src/main.rs lines 300-396) -/

/-- Filesystem-level behaviour of `archive` (main.rs lines 300-396) on a
filesystem modelled as the list of existing file names: `File::create`
(line 302) creates the destination, the entry loop sets `has_files` exactly
when some entry is a file or a directory, and if nothing was added the
destination is removed again and the process exits (`remove_file` +
`process::exit(-1)`, lines 389-393, modelled by outcome `none`); otherwise
`Ok(has_files)` = `some true` is returned. The result is the filesystem
after the call paired with the outcome. -/
def archiveRun (temp_file : String) (entries : List PathEntry) (fs : List String) :
    List String × Option Bool :=
  let fs1 := temp_file :: fs
  if entries.any (fun e => e.kind = PKind.file ∨ e.kind = PKind.dir) then
    (fs1, some true)
  else (fs1.erase temp_file, none)

/-! ## Upload persistence and receipt (src/main.rs lines 202-228) -/

/-- Observable actions of the upload tail of `main`, in program order. -/
inductive UEvent where
  | reportConflict
  | createFile
  | writeFile
  | flushFile
  | reportReceived
  | respond200
deriving DecidableEq, Repr

/-- Upload persistence and response, translated from main.rs lines 202-228
over a filesystem modelled as an association list from file names to
contents: if the target path exists, only an error is printed (lines
204-205) — no file is created or touched; otherwise the file is created,
the payload written and flushed, and a receipt printed (lines 207-211).
Either way the 200 status line and the templated receipt body are then
written to the socket (lines 224-226) and the loop `break`s. Returns the
filesystem after the exchange and the event sequence. -/
def handleUpload (filename : String) (payload : List Char)
    (fs : List (String × List Char)) : List (String × List Char) × List UEvent :=
  if (fs.map Prod.fst).contains filename then
    (fs, [UEvent.reportConflict, UEvent.respond200])
  else
    ((filename, payload) :: fs,
      [UEvent.createFile, UEvent.writeFile, UEvent.flushFile,
       UEvent.reportReceived, UEvent.respond200])

/-- Receipt body templating of main.rs lines 215-222: substitute the
literal placeholders into the receipt page with `replace`. -/
def receiptBody (received_html fn : List Char) (n : Nat) : Option (List Char) :=
  match replaceBytes "{filename}".data fn received_html with
  | none => none
  | some v1 => replaceBytes "{bytes}".data (toString n).data v1

/-! ## End-of-exchange cleanup (src/main.rs lines 88-237) -/

/-- Tail of `main` after `prepare_file` (main.rs lines 88-237), with the
accept loop's I/O outcome abstracted: `exchange = none` means the loop
finished normally, `exchange = some e` means some `?` inside the loop
(e.g. a socket read or write error mid-exchange) returned `Err(e)` from
`main` immediately — skipping everything after the loop. Only then does
control reach the cleanup of lines 232-235, which calls
`remove_file(f_name)` exactly when `is_archive` is set. Returns the
filesystem after `main`, the number of `remove_file` calls performed, and
the propagated error if any. -/
def mainFinish (is_archive : Bool) (f_name : String) (exchange : Option String)
    (fs : List String) : List String × Nat × Option String :=
  match exchange with
  | some e => (fs, 0, some e)
  | none =>
    if is_archive then (fs.erase f_name, 1, none)
    else (fs, 0, none)

/-! ## Supporting lemmas -/

/-- Helper: a positive-chunk `streamCopy` reproduces its source, by strong
induction on the source length. -/
theorem streamCopy_sound :
    ∀ (n chunk : Nat) (src : List Char), src.length ≤ n → 0 < chunk →
      streamCopy chunk src = src := by
  intro n
  induction n with
  | zero =>
    intro chunk src h _
    have hsrc : src = [] := List.length_eq_zero.mp (Nat.le_zero.mp h)
    subst hsrc
    rw [streamCopy]
    simp
  | succ n ih =>
    intro chunk src h hc
    rw [streamCopy]
    by_cases hs : src = []
    · simp [hs]
    · have hlen : 0 < src.length := List.length_pos.2 hs
      have htake : (src.take chunk).length ≠ 0 := by
        simp only [List.length_take]
        omega
      rw [if_neg htake]
      have hdrop : (src.drop chunk).length ≤ n := by
        simp only [List.length_drop]
        omega
      rw [ih chunk (src.drop chunk) hdrop hc]
      exact List.take_append_drop chunk src

/-! ## Claim theorems -/

/-- Claim C8, counterexample to the claim as stated: with a declared content
length (10) smaller than the part-header bytes consumed (50) plus the
boundary length (10) plus 8, the payload-length subtraction of main.rs
line 198 is not well-defined — the `usize` computation underflows (`none`),
it does not produce a payload length. -/
theorem filesize_underflow_cex : 10 < 50 + 10 + 8 ∧ filesize 10 50 10 = none := by
  decide

/-- Claim C8 (amended): the payload-length computation
`content_length - bytes_consumed - boundary.len() - 8` is well-defined
exactly when `content_length ≥ bytes_consumed + boundary_len + 8`, in which
case it equals the mathematical difference; whenever the computed length
would be negative the `usize` subtraction underflows (a panic under overflow
checks, a wraparound in release mode), so the exchange fails instead of
obtaining a payload length. -/
theorem filesize_characterisation (cl bc bl n : Nat) :
    (filesize cl bc bl = some n ↔ bc + bl + 8 ≤ cl ∧ n = cl - (bc + bl + 8)) ∧
    (filesize cl bc bl = none ↔ cl < bc + bl + 8) := by
  unfold filesize
  constructor
  · constructor
    · intro h
      split at h
      · exact ⟨by assumption, by simpa using h.symm⟩
      · exact absurd h (by simp)
    · rintro ⟨h1, rfl⟩
      simp [h1]
  · constructor
    · intro h
      split at h
      · exact absurd h (by simp)
      · omega
    · intro h
      have : ¬ (bc + bl + 8 ≤ cl) := by omega
      simp [this]

/-- Claim C9: the stream-copy primitive of main.rs lines 106-114 and
401-409, reading one chunk at a time and writing it immediately until a
zero-length read, reproduces the source byte sequence exactly at the sink
(for every input length) and the total copied length equals the source
length. -/
theorem streamCopy_roundtrip (chunk : Nat) (hc : 0 < chunk) (src : List Char) :
    streamCopy chunk src = src ∧ (streamCopy chunk src).length = src.length := by
  have h := streamCopy_sound src.length chunk src le_rfl hc
  exact ⟨h, by rw [h]⟩

/-- Claim C9 witness: the round-trip theorem applied at the program's
`BUF_SIZE` chunk and a concrete three-byte source. -/
theorem streamCopy_roundtrip_witness :
    streamCopy BUF_SIZE "abc".data = "abc".data ∧
    (streamCopy BUF_SIZE "abc".data).length = "abc".data.length :=
  streamCopy_roundtrip BUF_SIZE (by decide) "abc".data

/-- Claim C3, counterexample to the claim as stated: archive creation
succeeded (`is_archive = true`) but the exchange fails with a socket error;
the `?` operator returns the error from `main` before the cleanup of main.rs
lines 232-235, so the temporary archive is deleted zero times — not once —
and remains on disk. -/
theorem cleanup_skipped_cex :
    (mainFinish true "woof-rs.tar.gz" (some "broken pipe") ["woof-rs.tar.gz"]).2.1 = 0 ∧
    (mainFinish true "woof-rs.tar.gz" (some "broken pipe") ["woof-rs.tar.gz"]).1
      = ["woof-rs.tar.gz"] := by
  decide

/-- Claim C3 (amended): when archive creation succeeded
(`is_archive = true`), the temporary archive is deleted exactly once if and
only if the accept loop finishes without a propagated I/O error; if the
exchange fails mid-stream, the early `?` return of `main` skips the cleanup
and the temporary file remains on disk; an original user-supplied file
(`is_archive = false`) is never deleted. -/
theorem cleanup_once_on_success (is_archive : Bool) (f_name : String)
    (ex : Option String) (fs : List String) :
    ((mainFinish is_archive f_name ex fs).2.1 =
       if ex = none ∧ is_archive = true then 1 else 0) ∧
    (is_archive = false → (mainFinish is_archive f_name ex fs).1 = fs) ∧
    (ex ≠ none → (mainFinish is_archive f_name ex fs).1 = fs) ∧
    (ex = none → is_archive = true →
      (mainFinish is_archive f_name ex fs).1 = fs.erase f_name) := by
  cases ex with
  | none =>
    cases is_archive <;> simp [mainFinish]
  | some e =>
    cases is_archive <;> simp [mainFinish]

/-- Claim C3 witness: on a successful exchange the temporary archive is
removed from the filesystem. -/
theorem cleanup_once_on_success_witness :
    (mainFinish true "woof-rs.tar.gz" none ["woof-rs.tar.gz"]).1
      = List.erase ["woof-rs.tar.gz"] "woof-rs.tar.gz" :=
  (cleanup_once_on_success true "woof-rs.tar.gz" none ["woof-rs.tar.gz"]).2.2.2 rfl rfl

/-- Claim C4, counterexample to the claim as stated: the listening socket is
bound (main.rs line 62) before `prepare_file` runs (line 72), so on an empty
path list the process reaches the fatal configuration error only *after*
binding — the startup trace is `[bindSocket, exitError]`, refuting "exits
before binding any socket"; moreover with multiple paths none of which is
valid, `archive` exits and no temporary artifact is served, refuting the
unconditional "multiple paths ⇒ archive path served". -/
theorem prepare_bind_order_cex :
    startupTrace (fun _ => PKind.invalid) Encoding.tgz false []
      = [StartEvent.bindSocket, StartEvent.exitError] ∧
    prepare_file (fun _ => PKind.invalid) Encoding.tgz ["p", "q"] = none := by
  decide

/-- Claim C4 (amended): `prepare_file` maps a single regular file to the
file itself with `is_temporary = false`; a single directory or several
paths to the temporary archive name with `is_temporary = true`, except that
the build exits fatally when no path is a file or directory; an empty list
or a single invalid path is a fatal configuration error. The process exits
before serving, but only after the listening socket was already bound: the
startup trace always starts with `bindSocket`, followed by `exitError` in
the fatal cases. -/
theorem prepare_policy (kind : String → PKind) (enc : Encoding) (paths : List String) :
    prepare_file kind enc paths = prepareSpec kind enc paths ∧
    startupTrace kind enc false paths =
      (match prepare_file kind enc paths with
       | none => [StartEvent.bindSocket, StartEvent.exitError]
       | some (f, a) => [StartEvent.bindSocket, StartEvent.serveReady f a]) := by
  constructor
  · match paths with
    | [] => rfl
    | [p] =>
      cases hk : kind p with
      | file => simp [prepare_file, prepareSpec, hk]
      | dir => simp [prepare_file, prepareSpec, hk, archiveHasFiles]
      | invalid => simp [prepare_file, prepareSpec, hk]
    | p :: q :: rest =>
      have hlen : (p :: q :: rest).length > 1 := by simp
      have hne : (p :: q :: rest).length ≠ 1 := by simp
      simp [prepare_file, prepareSpec, hne, hlen]
  · unfold startupTrace
    cases prepare_file kind enc paths with
    | none => rfl
    | some v => rfl

/-- Claim C5, counterexample to the claim as stated: two *file* entries
sharing the base name `a` are both stored under the bare name `a` — file
entries are not index-disambiguated, so entries sharing a base name do
collide in the archive. -/
theorem file_name_collision_cex :
    archiveEntries [⟨"a", PKind.file, []⟩, ⟨"a", PKind.file, []⟩] = ["a", "a"] ∧
    ¬ (archiveEntries [⟨"a", PKind.file, []⟩, ⟨"a", PKind.file, []⟩]).Nodup := by
  decide

/-- Claim C5 (amended): only directory entries are disambiguated by the
input-order index — a directory at position `i` is stored as
`<base>-<i>` with its subtree under `<base>-<i>/<relative-path>` — while a
file entry is stored under its bare base name with no index, so two file
entries sharing a base name collide; the claim's example holds: two
directories `a/` and `b/` yield entries `a-0/...` and `b-1/...`. -/
theorem entry_naming (i : Nat) (e : PathEntry) :
    (e.kind = PKind.dir →
      entryNames i e =
        (e.base ++ "-" ++ toString i)
          :: e.subpaths.map (fun s => e.base ++ "-" ++ toString i ++ "/" ++ s)) ∧
    (e.kind = PKind.file → entryNames i e = [e.base]) ∧
    archiveEntries [⟨"a", PKind.dir, ["f"]⟩, ⟨"b", PKind.dir, ["g"]⟩]
      = ["a-0", "a-0/f", "b-1", "b-1/g"] := by
  refine ⟨fun h => ?_, fun h => ?_, by decide⟩
  · simp [entryNames, h]
  · simp [entryNames, h]

/-- Claim C5 witness: the naming theorem applied to a concrete directory
entry at position 1. -/
theorem entry_naming_witness :
    entryNames 1 ⟨"d", PKind.dir, ["x"]⟩
      = ("d" ++ "-" ++ toString 1)
          :: ["x"].map (fun s => "d" ++ "-" ++ toString 1 ++ "/" ++ s) :=
  (entry_naming 1 ⟨"d", PKind.dir, ["x"]⟩).1 rfl

/-- Claim C6: when no input path is a regular file or a directory, the
archive builder removes the destination file it created and signals the
fatal no-content exit, leaving the filesystem as it was (no artifact file
remains); if at least one valid entry exists, invalid entries are only
skipped with a warning and the build completes with the artifact present. -/
theorem empty_archive_cleanup (temp_file : String) (entries : List PathEntry)
    (fs : List String) :
    ((∀ e ∈ entries, e.kind = PKind.invalid) →
      archiveRun temp_file entries fs = (fs, none)) ∧
    ((∃ e ∈ entries, e.kind ≠ PKind.invalid) →
      archiveRun temp_file entries fs = (temp_file :: fs, some true)) := by
  constructor
  · intro h
    have hany : (entries.any fun e => decide (e.kind = PKind.file ∨ e.kind = PKind.dir))
        = false := by
      rw [List.any_eq_false]
      intro e he
      rw [h e he]
      decide
    unfold archiveRun
    rw [hany]
    simp
  · rintro ⟨e, he, hk⟩
    have hany : (entries.any fun e => decide (e.kind = PKind.file ∨ e.kind = PKind.dir))
        = true := by
      rw [List.any_eq_true]
      refine ⟨e, he, ?_⟩
      cases h : e.kind <;> simp_all
    unfold archiveRun
    rw [hany]
    simp

/-- Claim C6 witness: the cleanup branch applied to a concrete invalid-only
path list, and the skip branch applied to a mixed list. -/
theorem empty_archive_cleanup_witness :
    archiveRun "woof-rs.zip" [⟨"x", PKind.invalid, []⟩] [] = ([], none) ∧
    archiveRun "woof-rs.zip" [⟨"x", PKind.invalid, []⟩, ⟨"y", PKind.file, []⟩] []
      = (["woof-rs.zip"], some true) :=
  ⟨(empty_archive_cleanup "woof-rs.zip" [⟨"x", PKind.invalid, []⟩] []).1
      (by decide),
   (empty_archive_cleanup "woof-rs.zip"
        [⟨"x", PKind.invalid, []⟩, ⟨"y", PKind.file, []⟩] []).2
      ⟨⟨"y", PKind.file, []⟩, by decide, by decide⟩⟩

/-- Claim C7: when the extracted filename already exists, the filesystem is
left completely unchanged (the payload is discarded) and the exchange still
ends with the 200 receipt response after the conflict diagnostic; when it
does not exist, the file is created with the payload verbatim and the flush
happens before the response is sent (the event order is create, write,
flush, report, respond). -/
theorem upload_conflict (fn : String) (payload : List Char)
    (fs : List (String × List Char)) :
    ((fs.map Prod.fst).contains fn = true →
      (handleUpload fn payload fs).1 = fs ∧
      (handleUpload fn payload fs).2 = [UEvent.reportConflict, UEvent.respond200]) ∧
    ((fs.map Prod.fst).contains fn = false →
      (handleUpload fn payload fs).1 = (fn, payload) :: fs ∧
      (handleUpload fn payload fs).2
        = [UEvent.createFile, UEvent.writeFile, UEvent.flushFile,
           UEvent.reportReceived, UEvent.respond200]) ∧
    UEvent.respond200 ∈ (handleUpload fn payload fs).2 := by
  refine ⟨fun h => ?_, fun h => ?_, ?_⟩
  · unfold handleUpload
    rw [if_pos h]
    exact ⟨rfl, rfl⟩
  · unfold handleUpload
    rw [if_neg (show ¬((fs.map Prod.fst).contains fn = true) by rw [h]; decide)]
    exact ⟨rfl, rfl⟩
  · by_cases h : (fs.map Prod.fst).contains fn = true
    · unfold handleUpload
      rw [if_pos h]
      simp
    · unfold handleUpload
      rw [if_neg h]
      simp

/-- Claim C7 witness: the conflict branch applied at a concrete filesystem
holding `photo.png` (its contents survive untouched), and the fresh-name
branch applied at the empty filesystem. -/
theorem upload_conflict_witness :
    ((handleUpload "photo.png" [] [("photo.png", ['x'])]).1 = [("photo.png", ['x'])] ∧
     (handleUpload "photo.png" [] [("photo.png", ['x'])]).2
       = [UEvent.reportConflict, UEvent.respond200]) ∧
    (handleUpload "photo.png" ['y'] []).1 = [("photo.png", ['y'])] :=
  ⟨(upload_conflict "photo.png" [] [("photo.png", ['x'])]).1 (by decide),
   ((upload_conflict "photo.png" ['y'] []).2.1 (by decide)).1⟩

/-- Claim C2, counterexample to the claim as stated: in send mode a
connection whose request line matches neither `GET / HTTP/1.1` nor
`POST / HTTP/1.1` does *not* terminate the accept loop — the loop falls
through both branches and waits for the next connection, breaking only at
the later matching one (index 1, not 0). -/
theorem send_loop_continues_cex :
    loopRun false ["PUT / HTTP/1.1\r\n", "GET / HTTP/1.1\r\n"] ≠ some 0 ∧
    loopRun false ["PUT / HTTP/1.1\r\n", "GET / HTTP/1.1\r\n"] = some 1 := by
  decide

/-- Claim C2 (amended): in both modes, connections with non-matching request
lines are passed over silently and the loop continues to await the next
connection. The loop breaks exactly at the first connection whose request
line stops it: in send mode that is the first `GET / HTTP/1.1` (the file is
streamed) or `POST / HTTP/1.1`; in receive mode a GET is answered with the
upload form without stopping, and the loop stops at the first
`POST / HTTP/1.1`. -/
theorem loop_stop_characterisation (recv : Bool) (conns : List String) (i : Nat) :
    (loopRun recv conns = some i ↔
      (i < conns.length ∧ stopsOn recv (conns.getD i "") = true ∧
        ∀ j, j < i → stopsOn recv (conns.getD j "") = false)) ∧
    (∀ l, stopsOn false l = true ↔ (l = getLine ∨ l = postLine)) ∧
    (∀ l, stopsOn true l = true ↔ l = postLine) := by
  refine ⟨?_, ?_, ?_⟩
  · induction conns generalizing i with
    | nil => simp [loopRun]
    | cons l rest ih =>
      by_cases hl : stopsOn recv l = true
      · rw [loopRun, if_pos hl]
        constructor
        · intro h
          obtain rfl : 0 = i := Option.some.inj h
          refine ⟨by simp, by simpa using hl, ?_⟩
          intro j hj
          exact absurd hj (by omega)
        · rintro ⟨hi, hstop, hall⟩
          cases i with
          | zero => rfl
          | succ k =>
            have h0 := hall 0 (Nat.succ_pos k)
            rw [List.getD_cons_zero] at h0
            rw [hl] at h0
            exact absurd h0 (by decide)
      · have hl' : stopsOn recv l = false := by
          revert hl
          cases stopsOn recv l <;> simp
        rw [loopRun, if_neg hl]
        cases i with
        | zero =>
          constructor
          · intro h
            rcases Option.map_eq_some'.mp h with ⟨a, _, hfa⟩
            exact absurd hfa (by omega)
          · rintro ⟨_, hstop, _⟩
            rw [List.getD_cons_zero, hl'] at hstop
            exact absurd hstop (by decide)
        | succ k =>
          have hmap : ((loopRun recv rest).map (· + 1) = some (k + 1)) ↔
              loopRun recv rest = some k := by
            constructor
            · intro h
              rcases Option.map_eq_some'.mp h with ⟨a, ha, hfa⟩
              have hak : a = k := by omega
              rw [hak] at ha
              exact ha
            · intro h
              rw [h]
              rfl
          rw [hmap, ih k]
          constructor
          · rintro ⟨hk, hstop, hall⟩
            refine ⟨by simpa using Nat.succ_lt_succ hk,
              by simpa [List.getD_cons_succ] using hstop, ?_⟩
            intro j hj
            cases j with
            | zero => rw [List.getD_cons_zero]; exact hl'
            | succ j' =>
              rw [List.getD_cons_succ]
              exact hall j' (Nat.lt_of_succ_lt_succ hj)
          · rintro ⟨hk, hstop, hall⟩
            refine ⟨Nat.lt_of_succ_lt_succ (by simpa using hk),
              by simpa [List.getD_cons_succ] using hstop, ?_⟩
            intro j hj
            have hj1 := hall (j + 1) (Nat.succ_lt_succ hj)
            rw [List.getD_cons_succ] at hj1
            exact hj1
  · intro l
    by_cases h1 : l = getLine <;> by_cases h2 : l = postLine <;>
      simp [stopsOn, h1, h2]
  · intro l
    by_cases h1 : l = getLine <;> by_cases h2 : l = postLine <;>
      simp_all [stopsOn, getLine, postLine]

/-- Claim C2 witness: in receive mode the loop passes over a GET (serving
the upload form) and stops at the POST that follows it. -/
theorem loop_stop_witness :
    loopRun true ["GET / HTTP/1.1\r\n", "POST / HTTP/1.1\r\n"] = some 1 :=
  ((loop_stop_characterisation true
      ["GET / HTTP/1.1\r\n", "POST / HTTP/1.1\r\n"] 1).1).mpr
    ⟨by decide, by decide, by decide⟩

/-- Helper: `isPrefixOf` agrees with the existence of a list completion. -/
theorem isPrefixOf_iff_append :
    ∀ (l₁ l₂ : List Char), l₁.isPrefixOf l₂ = true ↔ ∃ t, l₂ = l₁ ++ t := by
  intro l₁
  induction l₁ with
  | nil =>
    intro l₂
    simp [List.isPrefixOf]
  | cons a as ih =>
    intro l₂
    cases l₂ with
    | nil =>
      simp [List.isPrefixOf]
    | cons b bs =>
      simp only [List.isPrefixOf, Bool.and_eq_true, beq_iff_eq, ih bs]
      constructor
      · rintro ⟨rfl, t, rfl⟩
        exact ⟨t, rfl⟩
      · rintro ⟨t, ht⟩
        cases ht
        exact ⟨rfl, t, rfl⟩

/-- Helper: a pattern longer than the buffer never matches, so `replaceSpec`
is the identity there. -/
theorem replaceSpec_of_short (from_ to_ : List Char) :
    ∀ (l : List Char), l.length < from_.length → replaceSpec from_ to_ l = l := by
  intro l
  induction l with
  | nil => intro _; rw [replaceSpec]
  | cons a rest ih =>
    intro h
    rw [replaceSpec]
    have hnp : ¬ (from_ ≠ [] ∧ from_.isPrefixOf (a :: rest) = true) := by
      rintro ⟨_, hp⟩
      rcases (isPrefixOf_iff_append from_ (a :: rest)).mp hp with ⟨t, ht⟩
      have hlen := congrArg List.length ht
      rw [List.length_cons, List.length_append] at hlen
      have h2 : rest.length + 1 < from_.length := by simpa using h
      omega
    rw [if_neg hnp]
    have : rest.length < from_.length := by
      simp only [List.length_cons] at h
      omega
    rw [ih this]

/-- Helper: `replaceSpec` consumes a leading match in one step. -/
theorem replaceSpec_append_match (from_ to_ t : List Char) (h : from_ ≠ []) :
    replaceSpec from_ to_ (from_ ++ t) = to_ ++ replaceSpec from_ to_ t := by
  cases hf : from_ with
  | nil => exact absurd hf h
  | cons f fs =>
    rw [show (f :: fs) ++ t = f :: (fs ++ t) by rfl, replaceSpec]
    have hp : (f :: fs).isPrefixOf (f :: (fs ++ t)) = true :=
      (isPrefixOf_iff_append _ _).mpr ⟨t, rfl⟩
    rw [if_pos ⟨by simp, hp⟩]
    congr 1
    rw [show (f :: (fs ++ t)) = (f :: fs) ++ t by rfl, List.drop_left]

/-- Helper: `replaceSpec` moves over a non-matching head byte. -/
theorem replaceSpec_cons_nomatch (from_ to_ : List Char) (a : Char)
    (rest : List Char) (h : from_.isPrefixOf (a :: rest) = false) :
    replaceSpec from_ to_ (a :: rest) = a :: replaceSpec from_ to_ rest := by
  rw [replaceSpec]
  rw [if_neg (by rintro ⟨_, hp⟩; rw [h] at hp; exact absurd hp (by decide))]

/-- Helper invariant of the splice loop: with the already-processed bytes
`done` in front of the cursor and the unprocessed bytes `rest` behind it,
enough fuel runs the loop to completion and it computes `replaceSpec` on
the unprocessed part. -/
theorem replaceGo_spec (from_ to_ : List Char) (hne : from_ ≠ []) :
    ∀ (fuel : Nat) (rest done : List Char), rest.length < fuel →
      replaceGo from_ to_ fuel (done ++ rest) done.length
        = some (done ++ replaceSpec from_ to_ rest) := by
  intro fuel
  induction fuel with
  | zero =>
    intro rest done h
    exact absurd h (by omega)
  | succ fuel ih =>
    intro rest done hlt
    rw [replaceGo]
    by_cases hc : done.length + from_.length ≤ (done ++ rest).length
    · rw [if_pos hc]
      have hfr : from_.length ≤ rest.length := by
        rw [List.length_append] at hc
        omega
      have hfpos : 0 < from_.length := List.length_pos.2 hne
      rw [List.drop_left]
      by_cases hp : from_.isPrefixOf rest = true
      · rw [if_pos hp]
        rcases (isPrefixOf_iff_append from_ rest).mp hp with ⟨t, rfl⟩
        have htake : (done ++ (from_ ++ t)).take done.length = done := List.take_left _ _
        have hdrop : (done ++ (from_ ++ t)).drop (done.length + from_.length)
            = t := by
          rw [← List.drop_drop, List.drop_left]
          exact List.drop_left _ _
        rw [htake, hdrop]
        have hlen : t.length < fuel := by
          have happ := List.length_append from_ t
          omega
        have := ih t (done ++ to_) hlen
        rw [List.length_append] at this
        rw [show done ++ to_ ++ t = (done ++ to_) ++ t by simp, this]
        rw [replaceSpec_append_match from_ to_ t hne]
        simp
      · have hp' : from_.isPrefixOf rest = false := by
          revert hp
          cases from_.isPrefixOf rest <;> simp
        rw [if_neg hp]
        cases rest with
        | nil =>
          have h0 : from_.length = 0 := by simpa using hfr
          exact absurd (List.length_eq_zero.mp h0) hne
        | cons r0 rest' =>
          have hres : done ++ (r0 :: rest') = (done ++ [r0]) ++ rest' := by simp
          have hi : done.length + 1 = (done ++ [r0]).length := by simp
          rw [hres, hi]
          have hlen : rest'.length < fuel := by
            simp only [List.length_cons] at hlt
            omega
          rw [ih rest' (done ++ [r0]) hlen]
          rw [replaceSpec_cons_nomatch from_ to_ r0 rest' hp']
          simp
    · rw [if_neg hc]
      have hshort : rest.length < from_.length := by
        rw [List.length_append] at hc
        omega
      rw [replaceSpec_of_short from_ to_ rest hshort]

/-- Claim C10: for every source buffer and nonempty pattern, `replace`
terminates (the fueled loop yields a result within `source.length + 1`
iterations) and the result substitutes every left-to-right, non-overlapping
occurrence of the pattern, never re-matching inside the bytes just
substituted — the behaviour captured by `replaceSpec`. The program only
calls it with the nonempty literals `{filename}` and `{bytes}`. -/
theorem replace_correct (from_ to_ source : List Char) (h : from_ ≠ []) :
    replaceBytes from_ to_ source = some (replaceSpec from_ to_ source) := by
  unfold replaceBytes
  have := replaceGo_spec from_ to_ h (source.length + 1) source [] (by omega)
  simpa using this

/-- Claim C10 witness: the correctness theorem applied to one of the
program's template substitutions. -/
theorem replace_correct_witness :
    "{filename}".data ≠ [] ∧
    replaceBytes "{filename}".data "photo.png".data "name: {filename}".data
      = some (replaceSpec "{filename}".data "photo.png".data "name: {filename}".data) :=
  ⟨by decide,
   replace_correct "{filename}".data "photo.png".data "name: {filename}".data
     (by decide)⟩

/-! ## Supporting lemmas for the multipart pipeline -/

/-- Helper: `readLine` on a newline-terminated line followed by anything
returns exactly that line. -/
theorem readLine_append (m r : List Char) (hm : '\n' ∉ m) :
    readLine ((m ++ ['\n']) ++ r) = (m ++ ['\n'], r) := by
  induction m with
  | nil => simp [readLine]
  | cons c m' ih =>
    have hc : c ≠ '\n' := fun h => hm (h ▸ List.mem_cons_self c m')
    have hm' : '\n' ∉ m' := fun h => hm (List.mem_cons_of_mem _ h)
    simp only [List.cons_append, readLine, if_neg hc, List.append_eq]
    rw [ih hm']

/-- Helper: the header scan stops at the empty `"\r\n"` line, charging its
two bytes. -/
theorem scanHeaders_stop (r : List Char) (bytes : Nat) (fname : List Char) :
    scanHeaders ((['\r'] ++ ['\n']) ++ r) bytes fname = some (bytes + 2, fname, r) := by
  rw [scanHeaders]
  rw [dif_neg (by simp : ¬((['\r'] ++ ['\n']) ++ r = []))]
  rw [readLine_append ['\r'] r (by decide)]
  have h1 : (['\r'] ++ ['\n'] : List Char) = ['\r', '\n'] := rfl
  rw [h1, if_pos rfl, if_neg (by decide : ¬(cdLit.isPrefixOf ['\r', '\n'] = true))]
  rfl

/-- Helper: the header scan consumes one non-empty line, charging its exact
byte count and updating the recorded filename on a Content-Disposition
line. -/
theorem scanHeaders_step (m r : List Char) (bytes : Nat) (fname : List Char)
    (hm : '\n' ∉ m) (hne : m ≠ ['\r']) :
    scanHeaders ((m ++ ['\n']) ++ r) bytes fname
      = scanHeaders r (bytes + (m.length + 1))
          (if cdLit.isPrefixOf (m ++ ['\n']) then extractFilename (m ++ ['\n'])
           else fname) := by
  rw [scanHeaders]
  rw [dif_neg (by simp : ¬((m ++ ['\n']) ++ r = []))]
  rw [readLine_append m r hm]
  have hline : ¬(m ++ ['\n'] = ['\r', '\n']) := by
    intro h
    exact hne ((List.append_left_inj ['\n']).mp (by simpa using h))
  rw [if_neg hline]
  simp

/-- Helper: a split never returns the empty list of pieces. -/
theorem splitOnChar_ne_nil (sep : Char) : ∀ l : List Char, splitOnChar sep l ≠ [] := by
  intro l
  cases l with
  | nil => simp [splitOnChar]
  | cons c rest =>
    rw [splitOnChar]
    split
    · simp
    · split <;> simp

/-- Helper: `lastD` skips a head in front of a nonempty tail. -/
theorem lastD_cons_of_ne_nil (x : List Char) {t : List (List Char)} (h : t ≠ []) :
    lastD (x :: t) = lastD t := by
  cases t with
  | nil => exact absurd rfl h
  | cons y ys => rfl

/-- Helper: splitting a separator-free string yields that string alone. -/
theorem splitOnChar_no_sep (sep : Char) :
    ∀ l : List Char, sep ∉ l → splitOnChar sep l = [l] := by
  intro l
  induction l with
  | nil => intro _; rfl
  | cons c rest ih =>
    intro h
    have hc : ¬(c = sep) := fun hcc => h (hcc ▸ List.mem_cons_self c rest)
    have hr : sep ∉ rest := fun hrr => h (List.mem_cons_of_mem _ hrr)
    rw [splitOnChar, if_neg hc, ih hr]

/-- Helper: splitting a string that contains the separator yields at least
two pieces. -/
theorem splitOnChar_sep_len (sep : Char) :
    ∀ (A B : List Char), 2 ≤ (splitOnChar sep (A ++ sep :: B)).length := by
  intro A
  induction A with
  | nil =>
    intro B
    rw [List.nil_append, splitOnChar, if_pos rfl]
    have := List.length_pos.2 (splitOnChar_ne_nil sep B)
    simp only [List.length_cons]
    omega
  | cons a A' ih =>
    intro B
    rw [List.cons_append, splitOnChar]
    by_cases ha : a = sep
    · rw [if_pos ha]
      have := List.length_pos.2 (splitOnChar_ne_nil sep (A' ++ sep :: B))
      simp only [List.length_cons]
      omega
    · rw [if_neg ha]
      cases hsp : splitOnChar sep (A' ++ sep :: B) with
      | nil => exact absurd hsp (splitOnChar_ne_nil sep _)
      | cons h t =>
        have hih := ih B
        rw [hsp] at hih
        simpa using hih

/-- Helper: the last piece of a split is the part after the last separator,
when that part is separator-free. -/
theorem lastD_splitOnChar_sep (sep : Char) :
    ∀ (A B : List Char), sep ∉ B →
      lastD (splitOnChar sep (A ++ sep :: B)) = B := by
  intro A
  induction A with
  | nil =>
    intro B hB
    rw [List.nil_append, splitOnChar, if_pos rfl, splitOnChar_no_sep sep B hB]
    rfl
  | cons a A' ih =>
    intro B hB
    rw [List.cons_append, splitOnChar]
    by_cases ha : a = sep
    · rw [if_pos ha, lastD_cons_of_ne_nil _ (splitOnChar_ne_nil sep _)]
      exact ih B hB
    · rw [if_neg ha]
      cases hsp : splitOnChar sep (A' ++ sep :: B) with
      | nil => exact absurd hsp (splitOnChar_ne_nil sep _)
      | cons h t =>
        have hlen := splitOnChar_sep_len sep A' B
        rw [hsp] at hlen
        have ht : t ≠ [] := by
          intro h0
          rw [h0] at hlen
          simp at hlen
        rw [lastD_cons_of_ne_nil _ ht]
        have hih := ih B hB
        rw [hsp, lastD_cons_of_ne_nil _ ht] at hih
        exact hih

/-- Helper: `dropWhile` passes over a block of characters it accepts. -/
theorem dropWhile_append_of_all (p : Char → Bool) :
    ∀ (q l : List Char), (∀ c ∈ q, p c = true) →
      (q ++ l).dropWhile p = l.dropWhile p := by
  intro q
  induction q with
  | nil => intro l _; rfl
  | cons c q' ih =>
    intro l h
    rw [List.cons_append, List.dropWhile_cons, h c (List.mem_cons_self c q')]
    simp only [if_true]
    exact ih l (fun x hx => h x (List.mem_cons_of_mem _ hx))

/-- Helper: `dropWhile` keeps a list whose head it rejects. -/
theorem dropWhile_cons_of_neg (p : Char → Bool) (c : Char) (l : List Char)
    (h : p c = false) : (c :: l).dropWhile p = c :: l := by
  rw [List.dropWhile_cons, h]
  simp

/-- Helper: `dropWhile` keeps a list none of whose elements it accepts. -/
theorem dropWhile_of_all_neg (p : Char → Bool) (l : List Char)
    (h : ∀ c ∈ l, p c = false) : l.dropWhile p = l := by
  cases l with
  | nil => rfl
  | cons c l' => exact dropWhile_cons_of_neg p c l' (h c (List.mem_cons_self c l'))

/-- Helper: `trimChars` strips exactly the whitespace wrapping around a core
that starts and ends with non-whitespace. -/
theorem trimChars_wrap (c d : Char) (mid p q : List Char)
    (hc : Char.isWhitespace c = false) (hd : Char.isWhitespace d = false)
    (hp : ∀ x ∈ p, Char.isWhitespace x = true)
    (hq : ∀ x ∈ q, Char.isWhitespace x = true) :
    trimChars (p ++ (c :: (mid ++ [d])) ++ q) = c :: (mid ++ [d]) := by
  unfold trimChars
  rw [List.append_assoc, dropWhile_append_of_all _ p _ hp]
  rw [show (c :: (mid ++ [d])) ++ q = c :: (mid ++ [d] ++ q) by simp]
  rw [dropWhile_cons_of_neg _ c _ hc]
  rw [show c :: (mid ++ [d] ++ q) = (c :: mid ++ [d]) ++ q by simp]
  rw [List.reverse_append]
  rw [dropWhile_append_of_all _ q.reverse _ (fun x hx => hq x (List.mem_reverse.mp hx))]
  rw [show (c :: mid ++ [d]).reverse = d :: (c :: mid).reverse by simp]
  rw [dropWhile_cons_of_neg _ d _ hd]
  rw [show (d :: (c :: mid).reverse).reverse = c :: (mid ++ [d]) by simp]

/-- Helper: stripping the wrapping quotes recovers a quote-free filename. -/
theorem trimMatchesQuote_wrap (fn : List Char) (h : '"' ∉ fn) :
    trimMatchesQuote ('"' :: (fn ++ ['"'])) = fn := by
  unfold trimMatchesQuote
  rw [show ('"' :: (fn ++ ['"'])) = ['"'] ++ (fn ++ ['"']) from rfl]
  rw [dropWhile_append_of_all _ ['"'] _ (by decide)]
  cases fn with
  | nil => simp
  | cons f fs =>
    have hf : (fun ch => decide (ch = '"')) f = false := by
      have : f ≠ '"' := fun hff => h (hff ▸ List.mem_cons_self f fs)
      simp [this]
    rw [show ((f :: fs) ++ ['"'] : List Char) = f :: (fs ++ ['"']) from rfl]
    rw [dropWhile_cons_of_neg _ f _ hf]
    rw [show (f :: (fs ++ ['"'])) = (f :: fs) ++ ['"'] from rfl]
    rw [List.reverse_append]
    rw [show (['"'].reverse : List Char) = ['"'] ++ [] from rfl]
    rw [List.append_assoc, dropWhile_append_of_all _ ['"'] _ (by decide)]
    rw [List.nil_append]
    rw [dropWhile_of_all_neg _ _ (fun x hx => by
      have hxm : x ∈ f :: fs := List.mem_reverse.mp hx
      have : x ≠ '"' := fun hxx => h (hxx ▸ hxm)
      simp [this])]
    exact List.reverse_reverse _

/-- Helper: the literal `"Content-Disposition"` is not a prefix of a line
starting with a dash (the boundary lines). -/
theorem cd_not_prefixOf_dash (x : List Char) : cdLit.isPrefixOf ('-' :: x) = false := by
  rw [show cdLit = 'C' :: "ontent-Disposition".data from rfl]
  simp [List.isPrefixOf]

/-- Helper: the Content-Disposition header line does start with the scanned
literal. -/
theorem cd_isPrefixOf_disp (fn tail : List Char) :
    cdLit.isPrefixOf (dispPre ++ fn ++ tail) = true := by
  rw [show dispPre = cdLit ++ ": form-data; name=\"upload-file\"; filename=\"".data
      from rfl]
  exact (isPrefixOf_iff_append _ _).mpr
    ⟨": form-data; name=\"upload-file\"; filename=\"".data ++ fn ++ tail,
     by simp [List.append_assoc]⟩

/-- Helper: the filename extraction of main.rs lines 173-182 applied to the
upload form's Content-Disposition line recovers exactly the filename, for
any filename free of `;`, `=`, `"` (and newlines). -/
theorem extract_disp (fn : List Char) (h1 : ';' ∉ fn) (h2 : '=' ∉ fn)
    (h3 : '"' ∉ fn) :
    extractFilename (dispPre ++ fn ++ ['"', '\r', '\n']) = fn := by
  unfold extractFilename
  have e1 : dispPre ++ fn ++ ['"', '\r', '\n']
      = "Content-Disposition: form-data; name=\"upload-file\"".data
          ++ ';' :: (" filename=\"".data ++ fn ++ ['"', '\r', '\n']) := by
    rw [show dispPre = "Content-Disposition: form-data; name=\"upload-file\"".data
        ++ [';'] ++ " filename=\"".data from rfl]
    simp [List.append_assoc]
  have hB : ';' ∉ " filename=\"".data ++ fn ++ ['"', '\r', '\n'] := by
    intro hm
    rcases List.mem_append.mp hm with hm' | hm'
    · rcases List.mem_append.mp hm' with hm'' | hm''
      · exact absurd hm'' (by decide)
      · exact h1 hm''
    · exact absurd hm' (by decide)
  rw [e1, lastD_splitOnChar_sep ';' _ _ hB]
  have e2 : " filename=\"".data ++ fn ++ ['"', '\r', '\n']
      = [' '] ++ ('f' :: (("ilename=\"".data ++ fn) ++ ['"'])) ++ ['\r', '\n'] := by
    rw [show " filename=\"".data = [' ', 'f'] ++ "ilename=\"".data from rfl]
    simp [List.append_assoc]
  rw [e2, trimChars_wrap 'f' '"' ("ilename=\"".data ++ fn) [' '] ['\r', '\n']
      (by decide) (by decide) (by decide) (by decide)]
  have e3 : ('f' :: (("ilename=\"".data ++ fn) ++ ['"']))
      = "filename".data ++ '=' :: ('"' :: (fn ++ ['"'])) := by
    rw [show ('f' :: (("ilename=\"".data ++ fn) ++ ['"']))
        = ('f' :: "ilename=\"".data) ++ fn ++ ['"'] by simp]
    rw [show ('f' :: "ilename=\"".data : List Char)
        = "filename".data ++ ['=', '"'] from rfl]
    simp [List.append_assoc]
  have hB2 : '=' ∉ '"' :: (fn ++ ['"']) := by
    intro hm
    rcases List.mem_cons.mp hm with hm' | hm'
    · exact absurd hm' (by decide)
    · rcases List.mem_append.mp hm' with hm'' | hm''
      · exact h2 hm''
      · exact absurd hm'' (by decide)
  rw [e3, lastD_splitOnChar_sep '=' _ _ hB2]
  exact trimMatchesQuote_wrap fn h3

/-- Helper: the part-header scan of the synthetic single-part body consumes
exactly the boundary line, the two part-header lines and the empty line,
accumulates their exact byte count, records the declared filename, and
leaves the payload followed by the closing delimiter unread. -/
theorem scanHeaders_synthetic (b fn payload : List Char)
    (hb : '\n' ∉ b) (hfn : '\n' ∉ fn) (h1 : ';' ∉ fn) (h2 : '=' ∉ fn)
    (h3 : '"' ∉ fn) :
    scanHeaders (syntheticBody b fn payload) 0 []
      = some ((boundaryLine b ++ dispLine fn ++ ctypeLine ++ crlf).length, fn,
          payload ++ closeDelim b) := by
  rw [show syntheticBody b fn payload
      = (('-' :: '-' :: (b ++ ['\r'])) ++ ['\n'])
        ++ (dispLine fn ++ (ctypeLine ++ (crlf ++ (payload ++ closeDelim b)))) by
    unfold syntheticBody boundaryLine crlf
    simp]
  have hm1 : '\n' ∉ ('-' :: '-' :: (b ++ ['\r'])) := by
    intro hm
    rcases List.mem_cons.mp hm with h | hm
    · exact absurd h (by decide)
    rcases List.mem_cons.mp hm with h | hm
    · exact absurd h (by decide)
    rcases List.mem_append.mp hm with h | h
    · exact hb h
    · exact absurd h (by decide)
  rw [scanHeaders_step _ _ 0 [] hm1 (by simp)]
  have hcd1 : cdLit.isPrefixOf (('-' :: '-' :: (b ++ ['\r'])) ++ ['\n']) = false := by
    rw [show (('-' :: '-' :: (b ++ ['\r'])) ++ ['\n'])
        = '-' :: ('-' :: ((b ++ ['\r']) ++ ['\n'])) from rfl]
    exact cd_not_prefixOf_dash _
  rw [if_neg (show ¬(cdLit.isPrefixOf (('-' :: '-' :: (b ++ ['\r'])) ++ ['\n']) = true) by
    rw [hcd1]; decide)]
  rw [show dispLine fn ++ (ctypeLine ++ (crlf ++ (payload ++ closeDelim b)))
      = ((dispPre ++ (fn ++ ['"', '\r'])) ++ ['\n'])
        ++ (ctypeLine ++ (crlf ++ (payload ++ closeDelim b))) by
    unfold dispLine crlf
    simp]
  have hm2 : '\n' ∉ (dispPre ++ (fn ++ ['"', '\r'])) := by
    intro hm
    rcases List.mem_append.mp hm with h | hm
    · exact absurd h (by decide)
    rcases List.mem_append.mp hm with h | h
    · exact hfn h
    · exact absurd h (by decide)
  have hne2 : (dispPre ++ (fn ++ ['"', '\r'])) ≠ ['\r'] := by
    intro h
    have hlen := congrArg List.length h
    have hd : dispPre.length = 62 := by decide
    simp [List.length_append, hd] at hlen
    omega
  rw [scanHeaders_step _ _ _ _ hm2 hne2]
  have hcd2 : cdLit.isPrefixOf ((dispPre ++ (fn ++ ['"', '\r'])) ++ ['\n']) = true := by
    rw [show ((dispPre ++ (fn ++ ['"', '\r'])) ++ ['\n'])
        = dispPre ++ fn ++ (['"', '\r'] ++ ['\n']) by simp]
    exact cd_isPrefixOf_disp fn _
  rw [if_pos hcd2]
  have hex : extractFilename ((dispPre ++ (fn ++ ['"', '\r'])) ++ ['\n']) = fn := by
    rw [show ((dispPre ++ (fn ++ ['"', '\r'])) ++ ['\n'])
        = dispPre ++ fn ++ ['"', '\r', '\n'] by simp]
    exact extract_disp fn h1 h2 h3
  rw [hex]
  rw [show ctypeLine ++ (crlf ++ (payload ++ closeDelim b))
      = (("Content-Type: application/octet-stream".data ++ ['\r']) ++ ['\n'])
        ++ (crlf ++ (payload ++ closeDelim b)) by
    unfold ctypeLine crlf
    simp]
  rw [scanHeaders_step _ _ _ _ (by decide) (by decide)]
  rw [if_neg (show ¬(cdLit.isPrefixOf
      (("Content-Type: application/octet-stream".data ++ ['\r']) ++ ['\n']) = true)
    by decide)]
  rw [show crlf ++ (payload ++ closeDelim b)
      = (['\r'] ++ ['\n']) ++ (payload ++ closeDelim b) from rfl]
  rw [scanHeaders_stop]
  simp only [Option.some.injEq, Prod.mk.injEq]
  refine ⟨?_, trivial⟩
  simp [boundaryLine, dispLine, ctypeLine, crlf, List.length_append, List.length_cons]
  omega

/-- Claim C1: on the synthetic single-part `multipart/form-data` body whose
payload is any `N` bytes, the ingestor reads the part headers line by line
(charging their exact byte count, the leading boundary line included),
computes the payload length as
`content_length - header_bytes - (boundary_length + 8)` — which equals `N`
exactly — and extracts exactly those `N` payload bytes together with the
filename declared in Content-Disposition. The filename must not contain
`;`, `=`, `"` or a newline (the parser's split/trim rules garble it
otherwise), and the boundary must not contain a newline. -/
theorem multipart_extraction (b fn payload : List Char)
    (hb : '\n' ∉ b) (hfn : '\n' ∉ fn) (h1 : ';' ∉ fn) (h2 : '=' ∉ fn)
    (h3 : '"' ∉ fn) :
    scanHeaders (syntheticBody b fn payload) 0 []
      = some ((boundaryLine b ++ dispLine fn ++ ctypeLine ++ crlf).length, fn,
          payload ++ closeDelim b) ∧
    filesize (syntheticBody b fn payload).length
        (boundaryLine b ++ dispLine fn ++ ctypeLine ++ crlf).length b.length
      = some payload.length ∧
    ingest (syntheticBody b fn payload).length b (syntheticBody b fn payload)
      = some (fn, payload) := by
  have hscan := scanHeaders_synthetic b fn payload hb hfn h1 h2 h3
  have hlen : (syntheticBody b fn payload).length
      = (boundaryLine b ++ dispLine fn ++ ctypeLine ++ crlf).length
        + payload.length + (b.length + 8) := by
    simp [syntheticBody, closeDelim, boundaryLine, dispLine, ctypeLine, crlf,
      List.length_append]
    omega
  have hfile : filesize (syntheticBody b fn payload).length
      (boundaryLine b ++ dispLine fn ++ ctypeLine ++ crlf).length b.length
      = some payload.length := by
    rw [hlen]
    unfold filesize
    rw [if_pos (by omega)]
    congr 1
    omega
  refine ⟨hscan, hfile, ?_⟩
  unfold ingest
  rw [hscan]
  simp only [hfile]
  rw [if_pos (by simp)]
  rw [List.take_left]

/-- Claim C1 witness: the extraction theorem applied to the concrete
boundary `XY`, filename `photo.png` and payload `hello, world`. -/
theorem multipart_extraction_witness :
    scanHeaders (syntheticBody "XY".data "photo.png".data "hello, world".data) 0 []
      = some ((boundaryLine "XY".data ++ dispLine "photo.png".data
            ++ ctypeLine ++ crlf).length, "photo.png".data,
          "hello, world".data ++ closeDelim "XY".data) ∧
    filesize (syntheticBody "XY".data "photo.png".data "hello, world".data).length
        (boundaryLine "XY".data ++ dispLine "photo.png".data
          ++ ctypeLine ++ crlf).length "XY".data.length
      = some "hello, world".data.length ∧
    ingest (syntheticBody "XY".data "photo.png".data "hello, world".data).length
        "XY".data
        (syntheticBody "XY".data "photo.png".data "hello, world".data)
      = some ("photo.png".data, "hello, world".data) :=
  multipart_extraction "XY".data "photo.png".data "hello, world".data
    (by decide) (by decide) (by decide) (by decide) (by decide)

end Woof
